import Mathlib

/-!
Verification of the video-dubbing pipeline (src/src/services) against its
specification.  The Python code is shallowly embedded: external effects
(HTTP downloads, ffmpeg invocations, text-to-speech, object-storage
uploads) are oracles packaged in a `World`; stateful orchestration becomes
explicit list folds; every fallible stage returns `Except`; the side
effects the claims talk about are recorded in an explicit event trace.
-/

namespace Dubbing

/-! ## Request data and `VideoGenerator.parse_blocks` (generator.py 24-50)

A raw request is a JSON-like mapping.  The parser only ever looks up keys
of the form block-i / audio-i / voice-i, so the mapping is modelled as
three association lists from the integer index to the stored value, which
is either a JSON list or some non-list value (`isinstance(x, list)` is the
only type test the code performs). -/

inductive JField (α : Type) where
  | list (items : List α)
  | nonList
deriving DecidableEq

structure VoiceConfig where
  text : String
  voice : String
deriving DecidableEq

structure RequestData where
  block : List (Nat × JField String)
  audio : List (Nat × JField String)
  voice : List (Nat × JField VoiceConfig)

/-- The block-family loop of `parse_blocks`: while key i is present, keep
the value when it is a non-empty list, then move to i+1; stop at the first
missing key.  The Python `while` is given as a fuel-indexed recursion; the
fuel chosen by `parse_blocks` always outlasts the loop (the loop visits
consecutive present keys, and an association list with n entries cannot
contain the n+1 distinct keys 1..n+1). -/
def scanBlocks (lookup : Nat → Option (JField String)) : Nat → Nat → List (List String)
  | 0, _ => []
  | fuel + 1, i =>
    match lookup i with
    | none => []
    | some (.list block) =>
      if block.isEmpty then scanBlocks lookup fuel (i + 1)
      else block :: scanBlocks lookup fuel (i + 1)
    | some .nonList => scanBlocks lookup fuel (i + 1)

/-- The audio-family and voice-family loops of `parse_blocks`: while key i
is present, `extend` the accumulator with the value when it is a list
(empty lists contribute nothing), then move to i+1. -/
def scanExtend {α : Type} (lookup : Nat → Option (JField α)) : Nat → Nat → List α
  | 0, _ => []
  | fuel + 1, i =>
    match lookup i with
    | none => []
    | some (.list items) => items ++ scanExtend lookup fuel (i + 1)
    | some .nonList => scanExtend lookup fuel (i + 1)

/-- `VideoGenerator.parse_blocks` (generator.py 24-50). -/
def parse_blocks (data : RequestData) :
    List (List String) × List String × List VoiceConfig :=
  (scanBlocks (fun i => data.block.lookup i) (data.block.length + 1) 1,
   scanExtend (fun i => data.audio.lookup i) (data.audio.length + 1) 1,
   scanExtend (fun i => data.voice.lookup i) (data.voice.length + 1) 1)

/-! ## External-effect oracles and the event trace -/

/-- Outcomes of the external effects the pipeline performs, resolved per
call site.  `blockDownloadOk b v` is the fate of downloading video v of
block b (0-based); `concatOk b` the fate of `concatenate_videos` for block
b; `mixOk a t` the fate of `mix_audio_tracks` on background-audio file a
and TTS file t; `renderOk n` the fate of `add_audio_to_video` for variant
number n; `uploadResult n` the URL returned by `gcs_service.upload_file`
for variant n, or `none` on upload failure. -/
structure World where
  blockDownloadOk : Nat → Nat → Bool
  concatOk : Nat → Bool
  audioDownloadOk : Nat → Bool
  ttsOk : Nat → Bool
  mixOk : Nat → Nat → Bool
  renderOk : Nat → Bool
  uploadResult : Nat → Option String

/-- Observable side effects of one `generate_all` run, in program order. -/
inductive Eff where
  | mkTempDir
  | downloadVideo (b v : Nat)
  | concatBlock (b : Nat)
  | downloadAudio (i : Nat)
  | synth (i : Nat)
  | silent (i : Nat)
  | mix (a t : Nat)
  | render (n : Nat)
  | upload (n : Nat)
  | rmTempDir
deriving DecidableEq

/-! ## Pipeline stages (generator.py) -/

/-- The download loop of `process_video_block` (generator.py 60-66): fetch
each source of block b in order, aborting with the raised message at the
first failed download. -/
def downloadBlockAux (dl : Nat → Nat → Bool) (b : Nat) :
    List String → Nat → Except String Unit × List Eff
  | [], _ => (.ok (), [])
  | _ :: rest, idx =>
    if dl b idx then
      let (r, tr) := downloadBlockAux dl b rest (idx + 1)
      (r, .downloadVideo b idx :: tr)
    else
      (.error ("Failed to download block" ++ toString (b + 1) ++ " video " ++ toString idx),
       [.downloadVideo b idx])

/-- `process_video_block` (generator.py 52-76) for block b: download every
source, then concatenate; a failed concatenation raises. -/
def process_video_block (dl : Nat → Nat → Bool) (cat : Nat → Bool)
    (urls : List String) (b : Nat) : Except String Unit × List Eff :=
  match downloadBlockAux dl b urls 0 with
  | (.error e, tr) => (.error e, tr)
  | (.ok _, tr) =>
    if cat b then (.ok (), tr ++ [.concatBlock b])
    else (.error ("block" ++ toString (b + 1) ++ ": Concatenation failed"), tr ++ [.concatBlock b])

/-- The Step-1 loop of `generate_all` (generator.py 239-244): process the
blocks in order, aborting at the first raised error.  On success the list
of base videos has exactly one entry per block. -/
def processBlocksAux (dl : Nat → Nat → Bool) (cat : Nat → Bool) :
    List (List String) → Nat → Except String Unit × List Eff
  | [], _ => (.ok (), [])
  | urls :: rest, b =>
    match process_video_block dl cat urls b with
    | (.error e, tr) => (.error e, tr)
    | (.ok _, tr) =>
      let (r, tr') := processBlocksAux dl cat rest (b + 1)
      (r, tr ++ tr')

/-- `download_all_audio` (generator.py 112-129): fetch each background
audio URL in order, returning the indices of the downloaded files, and
aborting with the raised message at the first failure. -/
def downloadAudioAux (dl : Nat → Bool) :
    List String → Nat → Except String (List Nat) × List Eff
  | [], _ => (.ok [], [])
  | _ :: rest, idx =>
    if dl idx then
      let (r, tr) := downloadAudioAux dl rest (idx + 1)
      (r.map (idx :: ·), .downloadAudio idx :: tr)
    else
      (.error ("Failed to download audio " ++ toString idx), [.downloadAudio idx])

/-- Result of synthesising one voice line: the real synthesis output, or
the one-second silent clip substituted on failure. -/
inductive TTSOut where
  | synthesized (idx : Nat)
  | silentClip (idx : Nat)
deriving DecidableEq

/-- `generate_all_tts` (generator.py 78-110): one output file per voice
line, substituting a silent clip when synthesis fails; never raises. -/
def ttsAux {α : Type} (ok : Nat → Bool) :
    List α → Nat → List TTSOut × List Eff
  | [], _ => ([], [])
  | _ :: rest, idx =>
    let (outs, tr) := ttsAux ok rest (idx + 1)
    if ok idx then (.synthesized idx :: outs, .synth idx :: tr)
    else (.silentClip idx :: outs, .synth idx :: .silent idx :: tr)

/-- `create_audio_mixes` (generator.py 154-184): walk the Cartesian
product of background-audio files and TTS files in `itertools.product`
order, keeping exactly the pairs whose mix succeeded. -/
def create_audio_mixes {α β : Type} (ok : α → β → Bool)
    (audio_files : List α) (tts_files : List β) : List (α × β) :=
  (audio_files.product tts_files).filter fun p => ok p.1 p.2

/-! ## Render units and the rendering fan-out (generator.py 259-317) -/

/-- One entry of the block-times-mix render matrix.  `blockIdx` is the
0-based index into the base videos (the code names it block(blockIdx+1)),
`mixIdx` the 0-based index into the successful-mix list, `variantNum` the
value of the global `variant_counter` when the task was created. -/
structure RenderUnit where
  blockIdx : Nat
  mixIdx : Nat
  variantNum : Nat
deriving DecidableEq

/-- The task list built at generator.py 309-315: block-major, mix-minor,
with `variant_counter` incremented before each unit, so the unit at overall
position p carries variant number p+1. -/
def mkUnits (nBlocks nMixes : Nat) : List RenderUnit :=
  (List.range nBlocks).flatMap fun b =>
    (List.range nMixes).map fun k => ⟨b, k, b * nMixes + k + 1⟩

/-- The variant identity `task_id`-`block_name`-v-`variant_num` built at
generator.py 269.  The code renders it as one string; the model keeps the
three components, which the string interpolation concatenates. -/
structure VariantId where
  taskId : String
  blockNum : Nat
  variantNum : Nat
deriving DecidableEq

def variantId (taskId : String) (u : RenderUnit) : VariantId :=
  ⟨taskId, u.blockIdx + 1, u.variantNum⟩

/-- Accumulated observable state of the rendering stage: the `successful`
URL records, the `failed` variant identities, the arguments of every
progress-callback invocation, and the effect trace. -/
structure RenderAcc where
  successful : List (VariantId × String)
  failed : List VariantId
  progress : List (Nat × Nat)
  trace : List Eff
deriving DecidableEq

/-- The rendering fan-out, one `generate_final_video` body
(generator.py 266-306) per unit.  `asyncio.gather` completes the admitted
units in a nondeterministic order; `sched` is that completion order (a
permutation of the built task list, which theorems assume).  Each finished
unit appends its record to exactly one of the two result lists, increments
the shared `completed` counter once, and reports it; the increment and the
callback argument evaluation have no await point between them, so each
reported value is distinct and in increment order. -/
def renderSched (rOk : Nat → Bool) (up : Nat → Option String) (taskId : String) (total : Nat) :
    List RenderUnit → Nat → RenderAcc
  | [], _ => ⟨[], [], [], []⟩
  | u :: rest, completed =>
    let acc := renderSched rOk up taskId total rest (completed + 1)
    if rOk u.variantNum then
      match up u.variantNum with
      | some url =>
        ⟨(variantId taskId u, url) :: acc.successful, acc.failed,
         (completed + 1, total) :: acc.progress,
         .render u.variantNum :: .upload u.variantNum :: acc.trace⟩
      | none =>
        ⟨acc.successful, variantId taskId u :: acc.failed,
         (completed + 1, total) :: acc.progress,
         .render u.variantNum :: .upload u.variantNum :: acc.trace⟩
    else
      ⟨acc.successful, variantId taskId u :: acc.failed,
       (completed + 1, total) :: acc.progress,
       .render u.variantNum :: acc.trace⟩

/-! ## `generate_all` (generator.py 213-329) -/

/-- The result object `generate_all` returns.  The code also initialises
an unused `urls : []` entry that nothing ever appends to; it is omitted. -/
structure Results where
  successful : List (VariantId × String)
  failed : List VariantId
  total : Nat
  error : Option String
deriving DecidableEq

/-- A full run: the returned result object, the arguments of every
progress-callback invocation, and the effect trace. -/
structure RunOut where
  results : Results
  progress : List (Nat × Nat)
  trace : List Eff
deriving DecidableEq

/-- `VideoGenerator.generate_all` (generator.py 213-329).  The whole body
sits in a try/except that converts any raised error into an `error` entry
on the result object, so the model is a total function.  `sched` resolves
the nondeterministic completion order of the rendering fan-out. -/
def generate_all (w : World) (taskId : String) (data : RequestData)
    (sched : List RenderUnit) : RunOut :=
  let video_blocks := (parse_blocks data).1
  let audio_urls := (parse_blocks data).2.1
  let voice_configs := (parse_blocks data).2.2
  if video_blocks.isEmpty then
    ⟨⟨[], [], 0, some "No video blocks found"⟩, [], []⟩
  else if audio_urls.isEmpty then
    ⟨⟨[], [], 0, some "No audio URLs found"⟩, [], []⟩
  else if voice_configs.isEmpty then
    ⟨⟨[], [], 0, some "No voice configs found"⟩, [], []⟩
  else
    match processBlocksAux w.blockDownloadOk w.concatOk video_blocks 0 with
    | (.error e, trB) => ⟨⟨[], [], 0, some e⟩, [], .mkTempDir :: trB⟩
    | (.ok _, trB) =>
      match downloadAudioAux w.audioDownloadOk audio_urls 0 with
      | (.error e, trA) => ⟨⟨[], [], 0, some e⟩, [], .mkTempDir :: (trB ++ trA)⟩
      | (.ok audio_files, trA) =>
        let tts_files := (ttsAux w.ttsOk voice_configs 0).1
        let trT := (ttsAux w.ttsOk voice_configs 0).2
        let tts_idxs := List.range tts_files.length
        let mixes := create_audio_mixes w.mixOk audio_files tts_idxs
        let trM := (audio_files.product tts_idxs).map fun p => Eff.mix p.1 p.2
        let total_variants := video_blocks.length * mixes.length
        let acc := renderSched w.renderOk w.uploadResult taskId total_variants sched 0
        ⟨⟨acc.successful, acc.failed, total_variants, none⟩,
         (0, total_variants) :: acc.progress,
         .mkTempDir :: (trB ++ trA ++ trT ++ trM ++ acc.trace) ++ [.rmTempDir]⟩

/-- The successful-mix list a run that reaches rendering works with: on
that path `download_all_audio` returned one file per URL and
`generate_all_tts` one file per voice line. -/
def pipelineMixes (w : World) (data : RequestData) : List (Nat × Nat) :=
  create_audio_mixes w.mixOk (List.range (parse_blocks data).2.1.length)
    (List.range (parse_blocks data).2.2.length)

/-- The render matrix a run that reaches rendering builds. -/
def pipelineUnits (w : World) (data : RequestData) : List RenderUnit :=
  mkUnits (parse_blocks data).1.length (pipelineMixes w data).length

/-! ## `download_file` (download.py 10-24) -/

/-- What the HTTP layer yields for one request: a response with a status
code, or a raised transport error (connection failure, timeout, ...). -/
inductive HttpResult where
  | response (status : Nat)
  | transportError
deriving DecidableEq

/-- `download_file` (download.py 10-24): writes and succeeds exactly on a
status-200 response; any other status logs and fails, any raised transport
error is caught and fails. -/
def download_file (r : HttpResult) : Bool :=
  match r with
  | .response status => status == 200
  | .transportError => false

/-! ## Concatenation engine (video.py) -/

/-- The fields of the `get_video_info` probe that
`check_videos_compatible` reads.  A probe that threw returns the empty
dict, on which `.get` yields `None` for codec and dimensions and the
read of fps with default 0 yields 0; `none` / fps 0 model that case.
Frame rates are rationals (the code reduces the r_frame_rate fraction to
a float; the 0.01 tolerance makes the comparison exact on rationals). -/
structure VideoInfo where
  video_codec : Option String
  width : Option Nat
  height : Option Nat
  fps : ℚ
deriving DecidableEq

/-- `check_videos_compatible` (video.py 47-68), applied to the probe
results of the input files: fewer than two files are compatible; otherwise
every later file must match the first in codec and exact resolution and
differ in frame rate by at most 0.01. -/
def check_videos_compatible (infos : List VideoInfo) : Bool :=
  match infos with
  | [] => true
  | first :: rest =>
    rest.all fun info =>
      (info.video_codec == first.video_codec) &&
      (info.width == first.width) && (info.height == first.height) &&
      (decide (|info.fps - first.fps| ≤ 1 / 100))

/-- The concatenation strategies `concatenate_videos` can invoke. -/
inductive ConcatMethod where
  | copySingle
  | probe
  | demuxer
  | filter
deriving DecidableEq

/-- `concatenate_videos` (video.py 71-102).  `ex` is file existence on
disk, `inf` the ffprobe oracle, `dOk` / `fOk` the fates of the demuxer and
filter ffmpeg invocations.  Returns the success flag and the strategies
invoked, in order: an empty input list or any missing input file fails
before anything is attempted; a single file is copied; otherwise the
compatibility probe chooses the fast demuxer path (falling back to the
filter path if the demuxer fails) or goes straight to the filter path. -/
def concatenate_videos {α : Type} (ex : α → Bool) (inf : α → VideoInfo)
    (dOk fOk : Bool) (video_paths : List α) : Bool × List ConcatMethod :=
  if video_paths.isEmpty then (false, [])
  else if video_paths.any (fun p => !ex p) then (false, [])
  else
    match video_paths with
    | [_] => (true, [.copySingle])
    | _ =>
      if check_videos_compatible (video_paths.map inf) then
        if dOk then (true, [.probe, .demuxer])
        else (fOk, [.probe, .demuxer, .filter])
      else (fOk, [.probe, .filter])

/-! ## Helper lemmas about the render matrix -/

theorem mkUnits_map_variantNum (nBlocks nMixes : Nat) :
    (mkUnits nBlocks nMixes).map (fun u => u.variantNum) = List.range' 1 (nBlocks * nMixes) := by
  induction nBlocks with
  | zero => simp [mkUnits]
  | succ n ih =>
    have hstep : mkUnits (n + 1) nMixes
        = mkUnits n nMixes ++ (List.range nMixes).map (fun k => ⟨n, k, n * nMixes + k + 1⟩) := by
      unfold mkUnits
      rw [List.range_succ, List.flatMap_append]
      simp
    rw [hstep, List.map_append, ih, List.map_map]
    have hmap : ((List.range nMixes).map
        ((fun u => u.variantNum) ∘ fun k => (⟨n, k, n * nMixes + k + 1⟩ : RenderUnit)))
        = List.range' (1 + n * nMixes) nMixes := by
      rw [List.range'_eq_map_range]
      refine List.map_congr_left ?_
      intro k _
      simp only [Function.comp_apply]
      omega
    rw [hmap]
    have := List.range'_append 1 (n * nMixes) nMixes 1
    simp only [Nat.one_mul] at this
    rw [this]
    congr 1
    ring

theorem mkUnits_length (nBlocks nMixes : Nat) :
    (mkUnits nBlocks nMixes).length = nBlocks * nMixes := by
  have := congrArg List.length (mkUnits_map_variantNum nBlocks nMixes)
  simpa using this

theorem mkUnits_pairwise_vid (taskId : String) (nBlocks nMixes : Nat) :
    (mkUnits nBlocks nMixes).Pairwise
      (fun a b => variantId taskId a ≠ variantId taskId b) := by
  have h1 : ((mkUnits nBlocks nMixes).map (fun u => u.variantNum)).Nodup := by
    rw [mkUnits_map_variantNum]; exact List.nodup_range' _ _
  have h2 : (mkUnits nBlocks nMixes).Pairwise
      (fun a b => a.variantNum ≠ b.variantNum) := List.pairwise_map.mp h1
  exact h2.imp fun h hvid => h (congrArg VariantId.variantNum hvid)

/-- In a list on which f is pairwise-distinct, exactly one element shares
the f-value of any member. -/
theorem countP_eq_one_of_pairwise {α β : Type} [DecidableEq β] (f : α → β)
    {l : List α} {u : α} (hu : u ∈ l)
    (hp : l.Pairwise (fun a b => f a ≠ f b)) :
    l.countP (fun v => decide (f v = f u)) = 1 := by
  induction l with
  | nil => cases hu
  | cons h t ih =>
    rw [List.countP_cons]
    rcases List.pairwise_cons.mp hp with ⟨hh, ht⟩
    by_cases hfe : f h = f u
    · have hz : t.countP (fun v => decide (f v = f u)) = 0 := by
        rw [List.countP_eq_zero]
        intro v hv
        simp only [decide_eq_true_eq]
        intro hvu
        exact hh v hv (hfe.trans hvu.symm)
      simp [hz, hfe]
    · have hut : u ∈ t := by
        cases hu with
        | head => exact absurd rfl hfe
        | tail _ h' => exact h'
      simp [hfe, ih hut ht]

/-! ## Helper lemmas about the rendering fan-out -/

theorem renderSched_progress (rOk : Nat → Bool) (up : Nat → Option String)
    (taskId : String) (total : Nat) (sched : List RenderUnit) (c : Nat) :
    (renderSched rOk up taskId total sched c).progress
      = (List.range' (c + 1) sched.length).map (fun k => (k, total)) := by
  induction sched generalizing c with
  | nil => simp [renderSched]
  | cons u rest ih =>
    rw [List.length_cons, List.range'_succ, List.map_cons]
    cases hro : rOk u.variantNum
    · simp [renderSched, hro, ih]
    · cases hup : up u.variantNum <;> simp [renderSched, hro, hup, ih]

theorem renderSched_lengths (rOk : Nat → Bool) (up : Nat → Option String)
    (taskId : String) (total : Nat) (sched : List RenderUnit) (c : Nat) :
    (renderSched rOk up taskId total sched c).successful.length
      + (renderSched rOk up taskId total sched c).failed.length = sched.length := by
  induction sched generalizing c with
  | nil => simp [renderSched]
  | cons u rest ih =>
    have h := ih (c + 1)
    cases hro : rOk u.variantNum
    · simp [renderSched, hro]
      omega
    · cases hup : up u.variantNum <;>
        · simp [renderSched, hro, hup]
          omega

theorem renderSched_counts (rOk : Nat → Bool) (up : Nat → Option String)
    (taskId : String) (total : Nat) (sched : List RenderUnit) (c : Nat) (q : VariantId) :
    (renderSched rOk up taskId total sched c).successful.countP (fun e => decide (e.1 = q))
      + (renderSched rOk up taskId total sched c).failed.countP (fun v => decide (v = q))
      = sched.countP (fun u => decide (variantId taskId u = q)) := by
  induction sched generalizing c with
  | nil => simp [renderSched]
  | cons u rest ih =>
    have h := ih (c + 1)
    cases hro : rOk u.variantNum
    · by_cases hq : variantId taskId u = q <;>
        · simp [renderSched, hro, List.countP_cons, hq]
          omega
    · cases hup : up u.variantNum <;>
        by_cases hq : variantId taskId u = q <;>
          · simp [renderSched, hro, hup, List.countP_cons, hq]
            omega

theorem renderSched_no_rm (rOk : Nat → Bool) (up : Nat → Option String)
    (taskId : String) (total : Nat) (sched : List RenderUnit) (c : Nat) :
    Eff.rmTempDir ∉ (renderSched rOk up taskId total sched c).trace := by
  induction sched generalizing c with
  | nil => simp [renderSched]
  | cons u rest ih =>
    cases hro : rOk u.variantNum
    · simp only [renderSched, hro, Bool.false_eq_true, if_false]
      simp only [List.mem_cons, not_or]
      exact ⟨by simp, ih (c + 1)⟩
    · cases hup : up u.variantNum <;>
        · simp only [renderSched, hro, if_true, hup]
          simp only [List.mem_cons, not_or]
          exact ⟨by simp, by simp, ih (c + 1)⟩

/-! ## Helper lemmas about the pre-render stages -/

theorem downloadBlockAux_no_rm (dl : Nat → Nat → Bool) (b : Nat)
    (urls : List String) (idx : Nat) :
    Eff.rmTempDir ∉ (downloadBlockAux dl b urls idx).2 := by
  induction urls generalizing idx with
  | nil => simp [downloadBlockAux]
  | cons u rest ih =>
    cases hd : dl b idx
    · simp [downloadBlockAux, hd]
    · simp only [downloadBlockAux, hd, if_true]
      simp only [List.mem_cons, not_or]
      exact ⟨by simp, ih (idx + 1)⟩

theorem process_video_block_no_rm (dl : Nat → Nat → Bool) (cat : Nat → Bool)
    (urls : List String) (b : Nat) :
    Eff.rmTempDir ∉ (process_video_block dl cat urls b).2 := by
  unfold process_video_block
  split
  · next h => exact h ▸ downloadBlockAux_no_rm dl b urls 0
  · next e tr h =>
    have hnotin := h ▸ downloadBlockAux_no_rm dl b urls 0
    cases hc : cat b <;>
      · simp only [hc, if_true, Bool.false_eq_true, if_false, List.mem_append, not_or]
        exact ⟨hnotin, by simp⟩

theorem processBlocksAux_no_rm (dl : Nat → Nat → Bool) (cat : Nat → Bool)
    (blocks : List (List String)) (b : Nat) :
    Eff.rmTempDir ∉ (processBlocksAux dl cat blocks b).2 := by
  induction blocks generalizing b with
  | nil => simp [processBlocksAux]
  | cons urls rest ih =>
    unfold processBlocksAux
    split
    · next h => exact h ▸ process_video_block_no_rm dl cat urls b
    · next e tr h =>
      have h1 := h ▸ process_video_block_no_rm dl cat urls b
      simp only [List.mem_append]
      rintro (hm | hm)
      · exact h1 hm
      · exact ih (b + 1) hm

theorem downloadAudioAux_no_rm (dl : Nat → Bool) (urls : List String) (idx : Nat) :
    Eff.rmTempDir ∉ (downloadAudioAux dl urls idx).2 := by
  induction urls generalizing idx with
  | nil => simp [downloadAudioAux]
  | cons u rest ih =>
    cases hd : dl idx
    · simp [downloadAudioAux, hd]
    · simp only [downloadAudioAux, hd, if_true]
      simp only [List.mem_cons, not_or]
      exact ⟨by simp, ih (idx + 1)⟩

/-- When every background-audio download succeeds, `download_all_audio`
returns exactly one local file per URL, in order. -/
theorem downloadAudioAux_ok (dl : Nat → Bool) (urls : List String) :
    ∀ (idx : Nat) (files : List Nat) (tr : List Eff),
      downloadAudioAux dl urls idx = (.ok files, tr) →
      files = List.range' idx urls.length := by
  induction urls with
  | nil =>
    intro idx files tr h
    simp [downloadAudioAux] at h
    simp [h.1.symm]
  | cons u rest ih =>
    intro idx files tr h
    cases hd : dl idx
    · simp [downloadAudioAux, hd] at h
    · rw [downloadAudioAux, hd, if_pos rfl] at h
      rcases hr : downloadAudioAux dl rest (idx + 1) with ⟨r, tr'⟩
      rw [hr] at h
      cases r with
      | error e => simp [Except.map] at h
      | ok l =>
        simp only [Except.map, Prod.mk.injEq, Except.ok.injEq] at h
        have hl := ih (idx + 1) l tr' (by rw [hr])
        rw [List.length_cons, List.range'_succ]
        rw [← h.1, hl]

/-- `generate_all_tts` produces exactly one output per voice line. -/
theorem ttsAux_length {α : Type} (ok : Nat → Bool) (vcs : List α) :
    ∀ idx : Nat, (ttsAux ok vcs idx).1.length = vcs.length := by
  induction vcs with
  | nil => intro idx; simp [ttsAux]
  | cons v rest ih =>
    intro idx
    cases ho : ok idx <;> simp [ttsAux, ho, ih (idx + 1)]

/-- The output for voice line i is the synthesized speech when synthesis
succeeded and the substituted silent clip when it failed. -/
theorem ttsAux_get (ok : Nat → Bool) {α : Type} (vcs : List α) :
    ∀ (idx i : Nat), i < vcs.length →
      (ttsAux ok vcs idx).1.get? i
        = some (if ok (idx + i) then .synthesized (idx + i) else .silentClip (idx + i)) := by
  induction vcs with
  | nil => intro idx i h; simp at h
  | cons v rest ih =>
    intro idx i h
    cases i with
    | zero => cases ho : ok idx <;> simp [ttsAux, ho]
    | succ j =>
      have hj : j < rest.length := by simp at h; omega
      have hrec := ih (idx + 1) j hj
      have harg : idx + 1 + j = idx + (j + 1) := by omega
      cases ho : ok idx <;>
        · simp only [ttsAux, ho, List.get?_cons_succ, Bool.false_eq_true, if_false, if_true]
          rw [hrec, harg]

/-! ## Characterization of a run that reaches the rendering stage -/

/-- The reported total of a run that reaches rendering. -/
def pipelineTotal (w : World) (data : RequestData) : Nat :=
  (parse_blocks data).1.length * (pipelineMixes w data).length

/-- A run whose result carries no `error` went through the success path:
its result lists and progress reports are those of the rendering fan-out
over `sched`, and its total is blocks times successful mixes. -/
theorem generate_all_success_eq (w : World) (taskId : String) (data : RequestData)
    (sched : List RenderUnit)
    (herr : (generate_all w taskId data sched).results.error = none) :
    ∃ tr : List Eff,
      generate_all w taskId data sched
        = ⟨⟨(renderSched w.renderOk w.uploadResult taskId (pipelineTotal w data) sched 0).successful,
            (renderSched w.renderOk w.uploadResult taskId (pipelineTotal w data) sched 0).failed,
            pipelineTotal w data, none⟩,
           (0, pipelineTotal w data)
             :: (renderSched w.renderOk w.uploadResult taskId (pipelineTotal w data) sched 0).progress,
           tr⟩ := by
  by_cases h1 : ((parse_blocks data).1).isEmpty
  · exfalso; unfold generate_all at herr; rw [if_pos h1] at herr; simp at herr
  · by_cases h2 : ((parse_blocks data).2.1).isEmpty
    · exfalso; unfold generate_all at herr
      rw [if_neg h1, if_pos h2] at herr; simp at herr
    · by_cases h3 : ((parse_blocks data).2.2).isEmpty
      · exfalso; unfold generate_all at herr
        rw [if_neg h1, if_neg h2, if_pos h3] at herr; simp at herr
      · rcases hB : processBlocksAux w.blockDownloadOk w.concatOk (parse_blocks data).1 0
          with ⟨rB, trB⟩
        cases rB with
        | error e =>
          exfalso; unfold generate_all at herr
          rw [if_neg h1, if_neg h2, if_neg h3, hB] at herr
          simp at herr
        | ok uB =>
          rcases hA : downloadAudioAux w.audioDownloadOk (parse_blocks data).2.1 0
            with ⟨rA, trA⟩
          cases rA with
          | error e =>
            exfalso; unfold generate_all at herr
            rw [if_neg h1, if_neg h2, if_neg h3, hB, hA] at herr
            simp at herr
          | ok files =>
            have hfiles : files = List.range ((parse_blocks data).2.1.length) := by
              rw [List.range_eq_range']
              exact downloadAudioAux_ok w.audioDownloadOk _ 0 files trA hA
            have hlen : (ttsAux w.ttsOk ((parse_blocks data).2.2) 0).1.length
                = (parse_blocks data).2.2.length := ttsAux_length _ _ 0
            refine ⟨Eff.mkTempDir ::
                (trB ++ trA ++ (ttsAux w.ttsOk ((parse_blocks data).2.2) 0).2
                  ++ ((List.range ((parse_blocks data).2.1.length)).product
                        (List.range ((parse_blocks data).2.2.length))).map
                      (fun p => Eff.mix p.1 p.2)
                  ++ (renderSched w.renderOk w.uploadResult taskId
                        (pipelineTotal w data) sched 0).trace)
                ++ [Eff.rmTempDir], ?_⟩
            unfold generate_all
            rw [if_neg h1, if_neg h2, if_neg h3, hB, hA]
            simp only [hfiles, hlen]
            rfl

/-! ## C9 and C10 theorems -/

/-- C9 counterexample: a 201 Created response is a 2xx response, yet
`download_file` reports failure, refuting success for every 2xx. -/
theorem download_file_2xx_refuted :
    200 ≤ 201 ∧ 201 < 300 ∧ download_file (.response 201) = false := by decide

/-- C9 (amended): `download_file` succeeds exactly on a status-200
response; every other status and any transport error (including a
timeout) is a failure. -/
theorem download_file_success_iff (r : HttpResult) :
    download_file r = true ↔ r = .response 200 := by
  cases r with
  | response s => simp [download_file]
  | transportError => simp [download_file]

/-- C10: `concatenate_videos` fails on an empty input list and whenever
some input file is missing on disk, in both cases invoking no
concatenation strategy at all (not even the compatibility probe); being a
total function it never raises on such inputs. -/
theorem concatenate_videos_guard {α : Type} (ex : α → Bool) (inf : α → VideoInfo)
    (dOk fOk : Bool) (paths : List α)
    (h : paths = [] ∨ ∃ p ∈ paths, ex p = false) :
    concatenate_videos ex inf dOk fOk paths = (false, []) := by
  rcases h with h | ⟨p, hp, hex⟩
  · simp [concatenate_videos, h]
  · have hne : paths.isEmpty = false := by
      cases paths with
      | nil => cases hp
      | cons a rest => rfl
    have hany : paths.any (fun q => !ex q) = true := by
      rw [List.any_eq_true]
      exact ⟨p, hp, by simp [hex]⟩
    simp [concatenate_videos, hne, hany]

/-- C10 witness: the empty input list. -/
theorem concatenate_videos_guard_witness :
    concatenate_videos (fun _ : Nat => true) (fun _ => ⟨none, none, none, 0⟩) true true []
      = (false, []) :=
  concatenate_videos_guard _ _ _ _ [] (Or.inl rfl)

theorem length_product_eq {α β : Type} (l₁ : List α) (l₂ : List β) :
    (l₁.product l₂).length = l₁.length * l₂.length := List.length_product l₁ l₂

/-! ## Concrete fixtures used by witnesses and counterexamples -/

/-- A world in which every external effect succeeds. -/
def wAll : World :=
  ⟨fun _ _ => true, fun _ => true, fun _ => true, fun _ => true, fun _ _ => true,
   fun _ => true, fun _ => some "url"⟩

/-- A minimal valid request: one single-source block, one background audio
URL, one voice line. -/
def dOne : RequestData :=
  ⟨[(1, .list ["v"])], [(1, .list ["a"])], [(1, .list [⟨"hi", "X"⟩])]⟩

/-! ## C5: temporary-directory cleanup -/

/-- A world whose first block-video download fails. -/
def wNoDl : World :=
  ⟨fun _ _ => false, fun _ => true, fun _ => true, fun _ => true, fun _ _ => true,
   fun _ => true, fun _ => some "url"⟩

/-- C5 counterexample: in a run whose first block download fails after the
task directory was created, the directory is never removed — the
`shutil.rmtree` sits inside the `try` block, not in a `finally`, so the
claimed removal regardless of outcome does not hold. -/
theorem cleanup_skipped_on_abort :
    Eff.mkTempDir ∈ (generate_all wNoDl "t" dOne []).trace
    ∧ Eff.rmTempDir ∉ (generate_all wNoDl "t" dOne []).trace
    ∧ (generate_all wNoDl "t" dOne []).results.error
        = some "Failed to download block1 video 0" := by decide

/-- C5 (amended): the task directory is removed exactly when the pipeline
runs to the cleanup step, i.e. when the run ends without a fatal error;
a run that aborts after creating the directory leaks it. -/
theorem cleanup_iff_no_error (w : World) (taskId : String) (data : RequestData)
    (sched : List RenderUnit) :
    Eff.rmTempDir ∈ (generate_all w taskId data sched).trace ↔
      (generate_all w taskId data sched).results.error = none := by
  by_cases h1 : ((parse_blocks data).1).isEmpty
  · unfold generate_all; rw [if_pos h1]; simp
  · by_cases h2 : ((parse_blocks data).2.1).isEmpty
    · unfold generate_all; rw [if_neg h1, if_pos h2]; simp
    · by_cases h3 : ((parse_blocks data).2.2).isEmpty
      · unfold generate_all; rw [if_neg h1, if_neg h2, if_pos h3]; simp
      · rcases hB : processBlocksAux w.blockDownloadOk w.concatOk (parse_blocks data).1 0
          with ⟨rB, trB⟩
        cases rB with
        | error e =>
          have hn := processBlocksAux_no_rm w.blockDownloadOk w.concatOk (parse_blocks data).1 0
          rw [hB] at hn
          unfold generate_all
          rw [if_neg h1, if_neg h2, if_neg h3, hB]
          simp [hn]
        | ok uB =>
          rcases hA : downloadAudioAux w.audioDownloadOk (parse_blocks data).2.1 0
            with ⟨rA, trA⟩
          have hnB := processBlocksAux_no_rm w.blockDownloadOk w.concatOk (parse_blocks data).1 0
          rw [hB] at hnB
          cases rA with
          | error e =>
            have hnA := downloadAudioAux_no_rm w.audioDownloadOk (parse_blocks data).2.1 0
            rw [hA] at hnA
            unfold generate_all
            rw [if_neg h1, if_neg h2, if_neg h3, hB, hA]
            simp [hnB, hnA]
          | ok files =>
            unfold generate_all
            rw [if_neg h1, if_neg h2, if_neg h3, hB, hA]
            simp

/-! ## C4: total entry point and validation ordering -/

/-- C4: `generate_all` is a total function into result objects (the whole
body is guarded by a catch-all), and an empty block, audio or voice family
makes it return the family-specific error message with no side effect at
all: no directory is created and no download, synthesis, mixing or
rendering is attempted (the trace is empty and the progress callback is
never invoked).  Blocks are checked before audio, audio before voices. -/
theorem generate_all_validation (w : World) (taskId : String) (data : RequestData)
    (sched : List RenderUnit) :
    ((parse_blocks data).1 = [] →
       generate_all w taskId data sched
         = ⟨⟨[], [], 0, some "No video blocks found"⟩, [], []⟩)
    ∧ ((parse_blocks data).1 ≠ [] → (parse_blocks data).2.1 = [] →
       generate_all w taskId data sched
         = ⟨⟨[], [], 0, some "No audio URLs found"⟩, [], []⟩)
    ∧ ((parse_blocks data).1 ≠ [] → (parse_blocks data).2.1 ≠ [] →
        (parse_blocks data).2.2 = [] →
       generate_all w taskId data sched
         = ⟨⟨[], [], 0, some "No voice configs found"⟩, [], []⟩) := by
  refine ⟨?_, ?_, ?_⟩
  · intro hb
    unfold generate_all
    rw [if_pos (by simp [hb])]
  · intro hb ha
    unfold generate_all
    rw [if_neg (by simp [hb]), if_pos (by simp [ha])]
  · intro hb ha hv
    unfold generate_all
    rw [if_neg (by simp [hb]), if_neg (by simp [ha]), if_pos (by simp [hv])]

/-- C4 witness: a request with no block family at all fails validation
with the block-specific message and an empty trace. -/
theorem generate_all_validation_witness :
    generate_all wAll "t" ⟨[], [(1, .list ["a"])], [(1, .list [⟨"hi", "X"⟩])]⟩ []
      = ⟨⟨[], [], 0, some "No video blocks found"⟩, [], []⟩ :=
  (generate_all_validation wAll "t" ⟨[], [(1, .list ["a"])], [(1, .list [⟨"hi", "X"⟩])]⟩ []).1
    (by decide)

/-! ## C1: the reported total and the mix matrix -/

/-- C1: in a run that reaches rendering, the reported total equals the
number of concatenated blocks times the number of successfully built
mixes; the successful mixes are at most audio-files times voice-files,
with equality exactly when no pairing failed; a failed pairing is not in
the mix list; and every progress report uses the reported total as its
denominator. -/
theorem mix_matrix_total (w : World) (taskId : String) (data : RequestData)
    (sched : List RenderUnit)
    (herr : (generate_all w taskId data sched).results.error = none) :
    (generate_all w taskId data sched).results.total
        = (parse_blocks data).1.length * (pipelineMixes w data).length
    ∧ (pipelineMixes w data).length
        ≤ (parse_blocks data).2.1.length * (parse_blocks data).2.2.length
    ∧ ((pipelineMixes w data).length
          = (parse_blocks data).2.1.length * (parse_blocks data).2.2.length
        ↔ ∀ p ∈ (List.range (parse_blocks data).2.1.length).product
              (List.range (parse_blocks data).2.2.length), w.mixOk p.1 p.2 = true)
    ∧ (∀ p ∈ (List.range (parse_blocks data).2.1.length).product
          (List.range (parse_blocks data).2.2.length),
        w.mixOk p.1 p.2 = false → p ∉ pipelineMixes w data)
    ∧ (∀ c ∈ (generate_all w taskId data sched).progress,
        c.2 = (generate_all w taskId data sched).results.total) := by
  rcases generate_all_success_eq w taskId data sched herr with ⟨tr, hrun⟩
  refine ⟨?_, ?_, ?_, ?_, ?_⟩
  · rw [hrun]; rfl
  · have h := List.length_filter_le (fun p => w.mixOk p.1 p.2)
      ((List.range (parse_blocks data).2.1.length).product
        (List.range (parse_blocks data).2.2.length))
    rw [length_product_eq, List.length_range, List.length_range] at h
    exact h
  · constructor
    · intro hlen
      have hlen' : (List.filter (fun p => w.mixOk p.1 p.2)
          ((List.range (parse_blocks data).2.1.length).product
            (List.range (parse_blocks data).2.2.length))).length
          = (parse_blocks data).2.1.length * (parse_blocks data).2.2.length := hlen
      have heq := (List.filter_sublist (p := fun p => w.mixOk p.1 p.2)
          ((List.range (parse_blocks data).2.1.length).product
            (List.range (parse_blocks data).2.2.length))).eq_of_length
        (by rw [hlen', length_product_eq, List.length_range, List.length_range])
      intro p hp
      rw [← heq] at hp
      exact (List.mem_filter.mp hp).2
    · intro hall
      have heq : (pipelineMixes w data)
          = (List.range (parse_blocks data).2.1.length).product
              (List.range (parse_blocks data).2.2.length) :=
        List.filter_eq_self.mpr hall
      rw [heq, length_product_eq, List.length_range, List.length_range]
  · intro p hp hbad hmem
    have := (List.mem_filter.mp hmem).2
    rw [hbad] at this
    cases this
  · intro c hc
    rw [hrun] at hc
    rcases List.mem_cons.mp hc with h | h
    · rw [hrun, h]
    · rw [renderSched_progress] at h
      rcases List.mem_map.mp h with ⟨k, hk, hkc⟩
      rw [hrun, ← hkc]

/-- C1 witness: the minimal all-success run reports total 1 = 1 block
times 1 mix. -/
theorem mix_matrix_total_witness :
    (generate_all wAll "t" dOne []).results.total
      = (parse_blocks dOne).1.length * (pipelineMixes wAll dOne).length :=
  (mix_matrix_total wAll "t" dOne [] (by decide)).1

/-! ## C2: the success/failure partition of attempted variants -/

/-- C2: in a completed run (no fatal error; the fan-out finished every
admitted unit, in whatever completion order), every attempted variant
contributes exactly one entry to exactly one of `successful` and `failed`:
for each unit of the render matrix, the number of `successful` records
keyed by its identity plus the number of `failed` entries equal to its
identity is exactly one, and the two collection sizes sum to the reported
total. -/
theorem variant_partition (w : World) (taskId : String) (data : RequestData)
    (sched : List RenderUnit)
    (herr : (generate_all w taskId data sched).results.error = none)
    (hperm : sched.Perm (pipelineUnits w data)) :
    (generate_all w taskId data sched).results.successful.length
        + (generate_all w taskId data sched).results.failed.length
        = (generate_all w taskId data sched).results.total
    ∧ ∀ u ∈ pipelineUnits w data,
        (generate_all w taskId data sched).results.successful.countP
            (fun e => decide (e.1 = variantId taskId u))
          + (generate_all w taskId data sched).results.failed.countP
            (fun v => decide (v = variantId taskId u)) = 1 := by
  rcases generate_all_success_eq w taskId data sched herr with ⟨tr, hrun⟩
  have hlen : sched.length = pipelineTotal w data := by
    rw [hperm.length_eq]
    show (mkUnits (parse_blocks data).1.length (pipelineMixes w data).length).length = _
    rw [mkUnits_length]
    rfl
  constructor
  · rw [hrun]
    show (renderSched w.renderOk w.uploadResult taskId (pipelineTotal w data) sched 0).successful.length
        + (renderSched w.renderOk w.uploadResult taskId (pipelineTotal w data) sched 0).failed.length
        = pipelineTotal w data
    rw [renderSched_lengths, hlen]
  · intro u hu
    rw [hrun]
    show (renderSched w.renderOk w.uploadResult taskId (pipelineTotal w data) sched 0).successful.countP _
        + (renderSched w.renderOk w.uploadResult taskId (pipelineTotal w data) sched 0).failed.countP _ = 1
    rw [renderSched_counts]
    rw [hperm.countP_eq (fun v => decide (variantId taskId v = variantId taskId u))]
    exact countP_eq_one_of_pairwise (variantId taskId) hu
      (mkUnits_pairwise_vid taskId _ _)

/-- C2 witness: the minimal all-success run, scheduled in matrix order. -/
theorem variant_partition_witness :
    (generate_all wAll "t" dOne (pipelineUnits wAll dOne)).results.successful.length
      + (generate_all wAll "t" dOne (pipelineUnits wAll dOne)).results.failed.length
      = (generate_all wAll "t" dOne (pipelineUnits wAll dOne)).results.total :=
  (variant_partition wAll "t" dOne (pipelineUnits wAll dOne) (by decide)
    (List.Perm.refl _)).1

/-! ## C3: progress-report sequence -/

/-- C3: in a completed run, the progress reports are exactly
(0,total), (1,total), ..., (total,total): the completed counts are
monotonically non-decreasing, there is exactly one update per finished
render unit (plus the initial zero report), the final report equals the
total, and the value total is reported exactly once, after every unit has
finished. -/
theorem progress_report_spec (w : World) (taskId : String) (data : RequestData)
    (sched : List RenderUnit)
    (herr : (generate_all w taskId data sched).results.error = none)
    (hperm : sched.Perm (pipelineUnits w data)) :
    (generate_all w taskId data sched).progress
        = (List.range ((generate_all w taskId data sched).results.total + 1)).map
            (fun k => (k, (generate_all w taskId data sched).results.total))
    ∧ List.Chain' (· ≤ ·) ((generate_all w taskId data sched).progress.map Prod.fst)
    ∧ (generate_all w taskId data sched).progress.getLast?
        = some ((generate_all w taskId data sched).results.total,
            (generate_all w taskId data sched).results.total)
    ∧ (generate_all w taskId data sched).progress.length
        = (generate_all w taskId data sched).results.total + 1
    ∧ ((generate_all w taskId data sched).progress.map Prod.fst).count
        ((generate_all w taskId data sched).results.total) = 1 := by
  rcases generate_all_success_eq w taskId data sched herr with ⟨tr, hrun⟩
  have hlen : sched.length = pipelineTotal w data := by
    rw [hperm.length_eq]
    show (mkUnits (parse_blocks data).1.length (pipelineMixes w data).length).length = _
    rw [mkUnits_length]
    rfl
  have hchar : (generate_all w taskId data sched).progress
      = (List.range (pipelineTotal w data + 1)).map (fun k => (k, pipelineTotal w data)) := by
    rw [hrun]
    show (0, pipelineTotal w data)
        :: (renderSched w.renderOk w.uploadResult taskId (pipelineTotal w data) sched 0).progress
        = _
    rw [renderSched_progress, hlen]
    rw [List.range_eq_range', List.range'_succ, List.map_cons]
  have htot : (generate_all w taskId data sched).results.total = pipelineTotal w data := by
    rw [hrun]
  have hfst : (generate_all w taskId data sched).progress.map Prod.fst
      = List.range (pipelineTotal w data + 1) := by
    rw [hchar, List.map_map]
    show (List.range (pipelineTotal w data + 1)).map id = _
    exact List.map_id _
  refine ⟨?_, ?_, ?_, ?_, ?_⟩
  · rw [htot, hchar]
  · rw [hfst]
    rw [show pipelineTotal w data + 1 = (pipelineTotal w data).succ from rfl]
    exact (List.chain'_range_succ (· ≤ ·) (pipelineTotal w data)).mpr
      (fun m _ => Nat.le_succ m)
  · rw [htot, hchar, List.range_succ, List.map_append]
    exact List.getLast?_concat _
  · rw [htot, hchar]
    simp
  · rw [htot, hfst, List.range_succ, List.count_append]
    have h0 : (List.range (pipelineTotal w data)).count (pipelineTotal w data) = 0 :=
      List.count_eq_zero_of_not_mem (by simp)
    rw [h0, List.count_singleton]
    simp

/-- C3 witness: the minimal all-success run reports (0,1) then (1,1). -/
theorem progress_report_spec_witness :
    (generate_all wAll "t" dOne (pipelineUnits wAll dOne)).progress
      = (List.range ((generate_all wAll "t" dOne (pipelineUnits wAll dOne)).results.total + 1)).map
          (fun k => (k, (generate_all wAll "t" dOne (pipelineUnits wAll dOne)).results.total)) :=
  (progress_report_spec wAll "t" dOne (pipelineUnits wAll dOne) (by decide)
    (List.Perm.refl _)).1

/-! ## C7: compatibility probe and path selection -/

/-- C7: the compatibility probe accepts a list of two or more files
exactly when every file matches the first in codec and exact resolution
and is within 0.01 fps of it; and whenever some input resolution differs
from the first file (with all inputs present on disk), the fast
demuxer path is never attempted and the safe filter path is selected. -/
theorem compat_probe_spec (first : VideoInfo) (rest : List VideoInfo) :
    (check_videos_compatible (first :: rest) = true ↔
      ∀ info ∈ rest, info.video_codec = first.video_codec ∧ info.width = first.width
        ∧ info.height = first.height ∧ |info.fps - first.fps| ≤ 1 / 100)
    ∧ (∀ (β : Type) (ex : β → Bool) (inf : β → VideoInfo) (dOk fOk : Bool)
        (p0 p1 : β) (more : List β),
        (∀ p ∈ p0 :: p1 :: more, ex p = true) →
        (∃ p ∈ p0 :: p1 :: more,
          (inf p).width ≠ (inf p0).width ∨ (inf p).height ≠ (inf p0).height) →
        ConcatMethod.demuxer ∉ (concatenate_videos ex inf dOk fOk (p0 :: p1 :: more)).2
        ∧ ConcatMethod.filter ∈ (concatenate_videos ex inf dOk fOk (p0 :: p1 :: more)).2) := by
  constructor
  · simp only [check_videos_compatible, List.all_eq_true]
    constructor
    · intro h info hi
      have hc := h info hi
      simp only [Bool.and_eq_true, beq_iff_eq, decide_eq_true_eq] at hc
      exact ⟨hc.1.1.1, hc.1.1.2, hc.1.2, hc.2⟩
    · intro h info hi
      rcases h info hi with ⟨h1, h2, h3, h4⟩
      simp only [h1, h2, h3]
      simpa using h4
  · intro β ex inf dOk fOk p0 p1 more hex hne
    have hcompat : check_videos_compatible (inf p0 :: inf p1 :: List.map inf more) = false := by
      rcases hne with ⟨p, hp, hne⟩
      rcases List.mem_cons.mp hp with rfl | hp'
      · rcases hne with h | h <;> exact absurd rfl h
      · simp only [check_videos_compatible]
        rw [List.all_eq_false]
        refine ⟨inf p, ?_, ?_⟩
        · rcases List.mem_cons.mp hp' with rfl | hp''
          · exact List.mem_cons_self _ _
          · exact List.mem_cons_of_mem _ (List.mem_map_of_mem inf hp'')
        · intro hc
          simp only [Bool.and_eq_true, beq_iff_eq, decide_eq_true_eq] at hc
          rcases hne with h | h
          · exact h hc.1.1.2
          · exact h hc.1.2
    have hany : (p0 :: p1 :: more).any (fun q => !ex q) = false := by
      rw [List.any_eq_false]
      intro q hq
      simp [hex q hq]
    have hres : concatenate_videos ex inf dOk fOk (p0 :: p1 :: more)
        = (fOk, [.probe, .filter]) := by
      simp [concatenate_videos, hany, hcompat]
    rw [hres]
    exact ⟨by simp, by simp⟩

/-- Probe oracle for the C7 witness: file 0 is 1080x1920, file 1 is
720x1280 with the same codec and frame rate. -/
def w7inf : Nat → VideoInfo := fun n =>
  if n = 0 then ⟨some "h264", some 1080, some 1920, 30⟩
  else ⟨some "h264", some 720, some 1280, 30⟩

/-- C7 witness: two existing files with mismatched resolutions select the
safe path and never the fast path. -/
theorem compat_probe_spec_witness :
    ConcatMethod.demuxer ∉ (concatenate_videos (fun _ : Nat => true) w7inf true true [0, 1]).2
    ∧ ConcatMethod.filter ∈ (concatenate_videos (fun _ : Nat => true) w7inf true true [0, 1]).2 :=
  (compat_probe_spec (w7inf 0) []).2 Nat (fun _ => true) w7inf true true 0 1 []
    (by decide) ⟨1, by decide, by decide⟩

/-! ## C8: one output per voice line, synthesis failures never fatal -/

theorem upd_bdl (w : World) (f : Nat → Bool) :
    ({ w with ttsOk := f } : World).blockDownloadOk = w.blockDownloadOk := rfl

theorem upd_cat (w : World) (f : Nat → Bool) :
    ({ w with ttsOk := f } : World).concatOk = w.concatOk := rfl

theorem upd_adl (w : World) (f : Nat → Bool) :
    ({ w with ttsOk := f } : World).audioDownloadOk = w.audioDownloadOk := rfl

theorem upd_tts (w : World) (f : Nat → Bool) :
    ({ w with ttsOk := f } : World).ttsOk = f := rfl

theorem upd_mix (w : World) (f : Nat → Bool) :
    ({ w with ttsOk := f } : World).mixOk = w.mixOk := rfl

theorem upd_rok (w : World) (f : Nat → Bool) :
    ({ w with ttsOk := f } : World).renderOk = w.renderOk := rfl

theorem upd_upl (w : World) (f : Nat → Bool) :
    ({ w with ttsOk := f } : World).uploadResult = w.uploadResult := rfl

/-- C8: the synthesis stage returns exactly one audio file per voice line
(it is a total function — a synthesis failure is absorbed, never raised);
the output for line i is the synthesized file when synthesis succeeded and
the substituted fixed-duration silent clip when it failed; and the run's
reported total and error are unchanged by any pattern of synthesis
failures — so a voice-line failure alone never reduces the variant count
and is never fatal to the task. -/
theorem tts_line_spec (w : World) (vcs : List VoiceConfig) (taskId : String)
    (data : RequestData) (sched : List RenderUnit) (f g : Nat → Bool) :
    (ttsAux w.ttsOk vcs 0).1.length = vcs.length
    ∧ (∀ i, i < vcs.length →
        (ttsAux w.ttsOk vcs 0).1.get? i
          = some (if w.ttsOk i then .synthesized i else .silentClip i))
    ∧ (generate_all { w with ttsOk := f } taskId data sched).results.total
        = (generate_all { w with ttsOk := g } taskId data sched).results.total
    ∧ (generate_all { w with ttsOk := f } taskId data sched).results.error
        = (generate_all { w with ttsOk := g } taskId data sched).results.error := by
  have main :
      (generate_all { w with ttsOk := f } taskId data sched).results.total
        = (generate_all { w with ttsOk := g } taskId data sched).results.total
      ∧ (generate_all { w with ttsOk := f } taskId data sched).results.error
        = (generate_all { w with ttsOk := g } taskId data sched).results.error := by
    unfold generate_all
    simp only [upd_bdl, upd_cat, upd_adl, upd_tts, upd_mix, upd_rok, upd_upl]
    by_cases h1 : ((parse_blocks data).1).isEmpty
    · rw [if_pos h1, if_pos h1]; exact ⟨rfl, rfl⟩
    · by_cases h2 : ((parse_blocks data).2.1).isEmpty
      · rw [if_neg h1, if_neg h1, if_pos h2, if_pos h2]; exact ⟨rfl, rfl⟩
      · by_cases h3 : ((parse_blocks data).2.2).isEmpty
        · rw [if_neg h1, if_neg h1, if_neg h2, if_neg h2, if_pos h3, if_pos h3]
          exact ⟨rfl, rfl⟩
        · rw [if_neg h1, if_neg h1, if_neg h2, if_neg h2, if_neg h3, if_neg h3]
          rcases hB : processBlocksAux w.blockDownloadOk w.concatOk (parse_blocks data).1 0
            with ⟨rB, trB⟩
          cases rB with
          | error e => exact ⟨rfl, rfl⟩
          | ok uB =>
            rcases hA : downloadAudioAux w.audioDownloadOk (parse_blocks data).2.1 0
              with ⟨rA, trA⟩
            cases rA with
            | error e => exact ⟨rfl, rfl⟩
            | ok files => simp [ttsAux_length]
  refine ⟨ttsAux_length w.ttsOk vcs 0, ?_, main.1, main.2⟩
  intro i hi
  have h := ttsAux_get w.ttsOk vcs 0 i hi
  simpa using h

/-- C8 witness: with one voice line, an all-failures synthesis oracle
yields the same total as an all-successes one. -/
theorem tts_line_spec_witness :
    (generate_all { wAll with ttsOk := fun _ => false } "t" dOne []).results.total
      = (generate_all { wAll with ttsOk := fun _ => true } "t" dOne []).results.total :=
  (tts_line_spec wAll [⟨"hi", "X"⟩] "t" dOne [] (fun _ => false) (fun _ => true)).2.2.1

/-! ## C6: the index-scanning behaviour of parse_blocks -/

/-- The value the block loop retains at index j, if any: present, a list,
and non-empty. -/
def retainedBlock (lookup : Nat → Option (JField String)) (j : Nat) : Option (List String) :=
  match lookup j with
  | some (.list l) => if l.isEmpty then none else some l
  | _ => none

/-- The sublist the audio and voice loops append at index j. -/
def extendChunk {α : Type} (lookup : Nat → Option (JField α)) (j : Nat) : List α :=
  match lookup j with
  | some (.list l) => l
  | _ => []

theorem scanBlocks_char (lookup : Nat → Option (JField String)) :
    ∀ (fuel i k : Nat), i ≤ k → lookup k = none →
      (∀ j, i ≤ j → j < k → (lookup j).isSome) → k ≤ i + fuel →
      scanBlocks lookup fuel i
        = (List.range' i (k - i)).filterMap (retainedBlock lookup) := by
  intro fuel
  induction fuel with
  | zero =>
    intro i k hik hk _ hb
    have heq : k = i := by omega
    subst heq
    simp [scanBlocks]
  | succ n ih =>
    intro i k hik hk hbelow hb
    by_cases hike : i = k
    · subst hike
      simp [scanBlocks, hk]
    · have hlt : i < k := by omega
      have hrange : List.range' i (k - i) = i :: List.range' (i + 1) (k - (i + 1)) := by
        have h2 : k - i = (k - (i + 1)) + 1 := by omega
        rw [h2, List.range'_succ]
      have hsome := hbelow i le_rfl hlt
      have ihs := ih (i + 1) k (by omega) hk
        (fun j hj1 hj2 => hbelow j (by omega) hj2) (by omega)
      rcases hli : lookup i with _ | f
      · rw [hli] at hsome; simp at hsome
      · cases f with
        | list l =>
          by_cases hemp : l.isEmpty
          · rw [hrange, List.filterMap_cons]
            have hret : retainedBlock lookup i = none := by simp [retainedBlock, hli, hemp]
            rw [hret]
            simp only [scanBlocks, hli, hemp, if_true]
            exact ihs
          · have hemp' : l.isEmpty = false := by simpa using hemp
            rw [hrange, List.filterMap_cons]
            have hret : retainedBlock lookup i = some l := by
              simp [retainedBlock, hli, hemp']
            rw [hret]
            simp only [scanBlocks, hli, hemp', Bool.false_eq_true, if_false]
            rw [ihs]
        | nonList =>
          rw [hrange, List.filterMap_cons]
          have hret : retainedBlock lookup i = none := by simp [retainedBlock, hli]
          rw [hret]
          simp only [scanBlocks, hli]
          exact ihs

theorem scanExtend_char {α : Type} (lookup : Nat → Option (JField α)) :
    ∀ (fuel i k : Nat), i ≤ k → lookup k = none →
      (∀ j, i ≤ j → j < k → (lookup j).isSome) → k ≤ i + fuel →
      scanExtend lookup fuel i
        = (List.range' i (k - i)).flatMap (extendChunk lookup) := by
  intro fuel
  induction fuel with
  | zero =>
    intro i k hik hk _ hb
    have heq : k = i := by omega
    subst heq
    simp [scanExtend]
  | succ n ih =>
    intro i k hik hk hbelow hb
    by_cases hike : i = k
    · subst hike
      simp [scanExtend, hk]
    · have hlt : i < k := by omega
      have hrange : List.range' i (k - i) = i :: List.range' (i + 1) (k - (i + 1)) := by
        have h2 : k - i = (k - (i + 1)) + 1 := by omega
        rw [h2, List.range'_succ]
      have hsome := hbelow i le_rfl hlt
      have ihs := ih (i + 1) k (by omega) hk
        (fun j hj1 hj2 => hbelow j (by omega) hj2) (by omega)
      rcases hli : lookup i with _ | f
      · rw [hli] at hsome; simp at hsome
      · cases f with
        | list l =>
          rw [hrange, List.flatMap_cons]
          have hch : extendChunk lookup i = l := by simp [extendChunk, hli]
          rw [hch]
          simp only [scanExtend, hli]
          rw [ihs]
        | nonList =>
          rw [hrange, List.flatMap_cons]
          have hch : extendChunk lookup i = [] := by simp [extendChunk, hli]
          rw [hch]
          simp only [scanExtend, hli]
          rw [ihs]
          rfl

theorem lookup_isSome_mem_keys {α : Type} (l : List (Nat × α)) (j : Nat)
    (h : (l.lookup j).isSome) : j ∈ l.map Prod.fst := by
  induction l with
  | nil => simp [List.lookup] at h
  | cons p rest ih =>
    rcases p with ⟨a, b⟩
    cases hja : (j == a) with
    | true =>
      have hj : j = a := by simpa using hja
      simp [hj]
    | false =>
      simp only [List.lookup_cons, hja] at h
      simp only [List.map_cons, List.mem_cons]
      exact Or.inr (ih h)

/-- A family whose indices 1..k-1 are all present in an association list
of n entries forces k ≤ n + 1; this is why the fuel chosen by
`parse_blocks` always outlasts the scanning loop. -/
theorem firstMissing_le {α : Type} (l : List (Nat × α)) (k : Nat) (hk1 : 1 ≤ k)
    (hbelow : ∀ j, 1 ≤ j → j < k → (l.lookup j).isSome) :
    k ≤ l.length + 1 := by
  by_contra hcon
  push_neg at hcon
  have hsub : List.range' 1 (k - 1) ⊆ l.map Prod.fst := by
    intro j hj
    rw [List.mem_range'_1] at hj
    exact lookup_isSome_mem_keys l j (hbelow j hj.1 (by omega))
  have hnd : (List.range' 1 (k - 1)).Nodup := List.nodup_range' _ _
  have hfin : (List.range' 1 (k - 1)).toFinset ⊆ (l.map Prod.fst).toFinset := by
    intro x hx
    rw [List.mem_toFinset] at hx ⊢
    exact hsub hx
  have hcard : (List.range' 1 (k - 1)).length ≤ (l.map Prod.fst).length := by
    calc (List.range' 1 (k - 1)).length
        = (List.range' 1 (k - 1)).toFinset.card := (List.toFinset_card_of_nodup hnd).symm
      _ ≤ (l.map Prod.fst).toFinset.card := Finset.card_le_card hfin
      _ ≤ (l.map Prod.fst).length := List.toFinset_card_le _
  rw [List.length_range', List.length_map] at hcard
  omega

/-- C6 counterexample: block1 is bound to the empty list and block2 to a
non-empty one; parsing retains block2.  An empty entry does not terminate
the scan — only a missing index does — so a block entry after an empty one
IS retained, refuting the claim that scanning stops there. -/
theorem parse_retains_after_empty :
    parse_blocks ⟨[(1, .list []), (2, .list ["u"])], [(1, .list ["a"])],
        [(1, .list [⟨"hi", "X"⟩])]⟩
      = ([["u"]], ["a"], [⟨"hi", "X"⟩]) := by decide

/-- C6 (amended): each family is scanned at contiguous indices starting
at 1 and stops exactly at the first missing index of that family; an
empty or non-list entry is skipped without terminating the scan; only
non-empty lists are retained as blocks; audio and voice list entries are
concatenated in index order. -/
theorem parse_blocks_scan_spec (data : RequestData) (kb ka kv : Nat)
    (hkb : 1 ≤ kb) (hmb : data.block.lookup kb = none)
    (hbb : ∀ j, 1 ≤ j → j < kb → (data.block.lookup j).isSome)
    (hka : 1 ≤ ka) (hma : data.audio.lookup ka = none)
    (hba : ∀ j, 1 ≤ j → j < ka → (data.audio.lookup j).isSome)
    (hkv : 1 ≤ kv) (hmv : data.voice.lookup kv = none)
    (hbv : ∀ j, 1 ≤ j → j < kv → (data.voice.lookup j).isSome) :
    (parse_blocks data).1
        = (List.range' 1 (kb - 1)).filterMap (retainedBlock (fun i => data.block.lookup i))
    ∧ (parse_blocks data).2.1
        = (List.range' 1 (ka - 1)).flatMap (extendChunk (fun i => data.audio.lookup i))
    ∧ (parse_blocks data).2.2
        = (List.range' 1 (kv - 1)).flatMap (extendChunk (fun i => data.voice.lookup i)) := by
  refine ⟨?_, ?_, ?_⟩
  · exact scanBlocks_char (fun i => data.block.lookup i) (data.block.length + 1) 1 kb
      hkb hmb hbb (by have := firstMissing_le data.block kb hkb hbb; omega)
  · exact scanExtend_char (fun i => data.audio.lookup i) (data.audio.length + 1) 1 ka
      hka hma hba (by have := firstMissing_le data.audio ka hka hba; omega)
  · exact scanExtend_char (fun i => data.voice.lookup i) (data.voice.length + 1) 1 kv
      hkv hmv hbv (by have := firstMissing_le data.voice kv hkv hbv; omega)

/-- C6 witness: the minimal request, whose three families all have their
first missing index at 2. -/
theorem parse_blocks_scan_spec_witness :
    (parse_blocks dOne).1
      = (List.range' 1 (2 - 1)).filterMap (retainedBlock (fun i => dOne.block.lookup i)) :=
  (parse_blocks_scan_spec dOne 2 2 2
    (by omega) (by decide)
    (fun j h1 h2 => by
      have hj : j = 1 := by omega
      subst hj; decide)
    (by omega) (by decide)
    (fun j h1 h2 => by
      have hj : j = 1 := by omega
      subst hj; decide)
    (by omega) (by decide)
    (fun j h1 h2 => by
      have hj : j = 1 := by omega
      subst hj; decide)).1

end Dubbing
